import Mathlib

/-!
Shallow embedding of the streak computation of the YogaFlow backend.

The code under scrutiny is the pair of Express handlers in
`src/unnamed/part_005`:

* `POST /api/progress` (lines 509–602): parses the user's completion
  history, filters out unparseable dates, sorts ascending by timestamp,
  walks the sorted dates backward to compute a `streak`, and computes an
  `isFirstOfMonth` flag from the dates falling in `now`'s month.
* `GET /api/progress/stats/:userId` (lines 617–681): same parse / filter /
  sort, the same backward current-streak walk, an additional forward
  longest-streak walk, and the same `isFirstOfMonth` computation.

Modelling choices:

* A JavaScript `Date` is modelled by its epoch value in milliseconds, an
  `Int` (`d.getTime()`).  Parsing `new Date(p.completedAt ?? "")` either
  yields a valid time or `NaN`; an event is therefore modelled as an
  `Option Int` (`none` = the parse produced `NaN`, which the handlers
  filter out with `!isNaN(d.getTime())`).
* `getFullYear` / `getMonth` / `getDate` decompose the timestamp into
  calendar components.  They are modelled at UTC offset 0 with the
  standard civil-from-days conversion; only equalities of components are
  ever used by the handlers, so the (constant) locale offset and the
  0-based vs 1-based month numbering do not affect any statement below.
* `Math.round(x)` for the real `x = (t2 - t1) / 86400000` is half-up
  rounding toward `+∞`, i.e. `⌊x + 1/2⌋`, computed exactly on integers as
  `(2*(t2 - t1) + 86400000).fdiv (2 * 86400000)`.
* `Array.prototype.sort` with comparator `(a, b) => a.getTime() - b.getTime()`
  sorts ascending by time; it is modelled by `List.insertionSort (· ≤ ·)`.
-/

/-- Milliseconds in one day, the constant `1000 * 60 * 60 * 24` of the source. -/
def dayMs : Int := 86400000

/-- `Math.round((t2 - t1) / (1000*60*60*24))` computed exactly:
JavaScript `Math.round` is `⌊x + 1/2⌋` (half-up, toward `+∞`). -/
def diffDays (t1 t2 : Int) : Int :=
  (2 * (t2 - t1) + dayMs).fdiv (2 * dayMs)

/-- Civil-from-days: days since the Unix epoch to `(year, month, day)`
(proleptic Gregorian, month `1..12`).  Models the calendar decomposition
behind `getFullYear` / `getMonth` / `getDate` at offset 0. -/
def civilFromDays (z0 : Int) : Int × Int × Int :=
  let z := z0 + 719468
  let era := z.fdiv 146097
  let doe := z - era * 146097
  let yoe := (doe - doe.fdiv 1460 + doe.fdiv 36524 - doe.fdiv 146096).fdiv 365
  let y := yoe + era * 400
  let doy := doe - (365 * yoe + yoe.fdiv 4 - yoe.fdiv 100)
  let mp := (5 * doy + 2).fdiv 153
  let d := doy - (153 * mp + 2).fdiv 5 + 1
  let m := mp + (if mp < 10 then 3 else -9)
  (y + (if m ≤ 2 then 1 else 0), m, d)

/-- Days-from-civil, the inverse of `civilFromDays`; used to build concrete
timestamps for the spec's scenarios. -/
def daysFromCivil (y m d : Int) : Int :=
  let y := y - (if m ≤ 2 then 1 else 0)
  let era := y.fdiv 400
  let yoe := y - era * 400
  let mp := m + (if m > 2 then -3 else 9)
  let doy := (153 * mp + 2).fdiv 5 + d - 1
  let doe := yoe * 365 + yoe.fdiv 4 - yoe.fdiv 100 + doy
  era * 146097 + doe - 719468

/-- The epoch milliseconds of midnight on calendar day `(y, m, d)`. -/
def dateMs (y m d : Int) : Int := daysFromCivil y m d * dayMs

/-- Milliseconds in one hour. -/
def hourMs : Int := 3600000

/-- `d.getFullYear()` of a timestamp. -/
def dateYear (t : Int) : Int := (civilFromDays (t.fdiv dayMs)).1

/-- `d.getMonth()` of a timestamp (1-based here; only equalities are used). -/
def dateMonth (t : Int) : Int := (civilFromDays (t.fdiv dayMs)).2.1

/-- `d.getDate()` of a timestamp. -/
def dateDay (t : Int) : Int := (civilFromDays (t.fdiv dayMs)).2.2

/-- The handlers' `isSameDay`: year, month and day components all equal
(part_005 lines 544–547 and 671–674). -/
def isSameDay (a b : Int) : Bool :=
  dateYear a == dateYear b && dateMonth a == dateMonth b && dateDay a == dateDay b

/-- The month filter predicate of part_005 lines 540–542 and 667–669:
`d.getMonth() === currentMonth && d.getFullYear() === currentYear`. -/
def inMonth (d now : Int) : Bool :=
  dateMonth d == dateMonth now && dateYear d == dateYear now

/-- `.sort((a, b) => a.getTime() - b.getTime())`: ascending by timestamp. -/
def sortDates (l : List Int) : List Int := List.insertionSort (· ≤ ·) l

/-- Adjacent rounded day differences of a date list: element `i` is
`diffDays dates[i] dates[i+1]`, the quantity both streak loops compute. -/
def adjDiffs : List Int → List Int
  | a :: b :: rest => diffDays a b :: adjDiffs (b :: rest)
  | _ => []

/-- The backward current-streak walk over the reversed difference list
(part_005 lines 633–640): diff `1` extends, diff `0` is skipped
(`// multiple in same day`), anything else breaks. -/
def curWalk : List Int → Nat
  | [] => 0
  | d :: rest =>
    if d == 1 then 1 + curWalk rest
    else if d == 0 then curWalk rest
    else 0

/-- `currentStreak` of the `GET /api/progress/stats/:userId` handler
(part_005 lines 630–641): `0` on no dates, else `1` plus the backward walk
from the most recent adjacent pair. -/
def currentStreakOf (dates : List Int) : Nat :=
  if dates.isEmpty then 0 else 1 + curWalk (adjDiffs dates).reverse

/-- The forward longest-streak loop body (part_005 lines 646–661), carrying
the running `run` and `longestStreak` accumulators, followed by the final
`longestStreak = Math.max(longestStreak, run)` of line 662. -/
def longAux (run best : Nat) : List Int → Nat
  | [] => max best run
  | d :: rest =>
    if d == 1 then longAux (run + 1) best rest
    else if d == 0 then longAux run best rest
    else longAux 1 (max best run) rest

/-- `longestStreak` of the stats handler (part_005 lines 644–662): `run`
starts at `1` on the first date, then the forward loop over the adjacent
differences, then one final `max`. -/
def longestStreakOf (dates : List Int) : Nat :=
  match dates with
  | [] => 0
  | _ :: _ => longAux 1 0 (adjDiffs dates)

/-- `monthDates` (part_005 lines 667–669): the sorted dates restricted to
`now`'s calendar month and year. -/
def monthDates (dates : List Int) (now : Int) : List Int :=
  dates.filter (fun d => inMonth d now)

/-- `isFirstOfMonth` (part_005 lines 670–675): take `monthDates[0]` of the
sorted list; `true` iff it exists and is the same calendar day as `now`. -/
def isFirstOfMonthOf (dates : List Int) (now : Int) : Bool :=
  match monthDates dates now with
  | [] => false
  | d :: _ => isSameDay d now

/-- The record returned by `GET /api/progress/stats/:userId` (line 677). -/
structure StreakResult where
  currentStreak : Nat
  longestStreak : Nat
  isFirstOfMonth : Bool
  deriving DecidableEq, Repr

/-- The whole stats computation (part_005 lines 624–677): parse (modelled
by the `Option`), filter out invalid dates, sort ascending, then the three
derived quantities. -/
def computeStreaks (events : List (Option Int)) (now : Int) : StreakResult :=
  let dates := sortDates (events.filterMap id)
  { currentStreak := currentStreakOf dates
    longestStreak := longestStreakOf dates
    isFirstOfMonth := isFirstOfMonthOf dates now }

/-- The `streak` loop of the `POST /api/progress` handler (part_005 lines
524–535), which duplicates the stats handler's current-streak walk. -/
def postStreakOf (dates : List Int) : Nat :=
  if dates.isEmpty then 0 else 1 + curWalk (adjDiffs dates).reverse

/-- The `isFirstOfMonth` computation of the `POST /api/progress` handler
(part_005 lines 537–548), duplicating the stats handler's. -/
def postIsFirstOfMonthOf (dates : List Int) (now : Int) : Bool :=
  match dates.filter (fun d => inMonth d now) with
  | [] => false
  | d :: _ => isSameDay d now
/-- Warm-up lemma: removing the `none` entries (failed parses) before the
computation does not change the list of valid dates. -/
theorem filterMap_id_filter_isSome (l : List (Option Int)) :
    (l.filter (fun e => e.isSome)).filterMap id = l.filterMap id := by
  induction l with
  | nil => rfl
  | cons e t ih => cases e <;> simp [List.filter, ih]

/-- C4: on an empty event list the computation returns
`currentStreak = 0`, `longestStreak = 0`, `isFirstOfMonth = false`,
whatever the reference time `now` is. -/
theorem C4_empty_events (now : Int) :
    computeStreaks [] now = ⟨0, 0, false⟩ := rfl

/-- C3: `currentStreak` and `longestStreak` do not depend on the reference
time `now`; and in the stale-streak scenario (`now` = 2024-03-20, events on
2024-03-01 and 2024-03-02) the current streak is still 2. -/
theorem C3_streaks_independent_of_now :
    (∀ (events : List (Option Int)) (now now' : Int),
      (computeStreaks events now).currentStreak = (computeStreaks events now').currentStreak ∧
      (computeStreaks events now).longestStreak = (computeStreaks events now').longestStreak) ∧
    (computeStreaks [some (dateMs 2024 3 1), some (dateMs 2024 3 2)]
        (dateMs 2024 3 20)).currentStreak = 2 := by
  exact ⟨fun _ _ _ => ⟨rfl, rfl⟩, by decide⟩

/-- C5: the spec's two longest-streak scenarios: events on March 1–3 and
8–10 of 2024 give `currentStreak = 3` and `longestStreak = 3` (two runs of
length 3, final `max` included); events on March 3–5 give 3 and 3. -/
theorem C5_longest_streak_scenarios :
    ((computeStreaks ([1, 2, 3, 8, 9, 10].map (fun d => some (dateMs 2024 3 d)))
        (dateMs 2024 3 10)).currentStreak = 3 ∧
     (computeStreaks ([1, 2, 3, 8, 9, 10].map (fun d => some (dateMs 2024 3 d)))
        (dateMs 2024 3 10)).longestStreak = 3) ∧
    ((computeStreaks ([3, 4, 5].map (fun d => some (dateMs 2024 3 d)))
        (dateMs 2024 3 5)).currentStreak = 3 ∧
     (computeStreaks ([3, 4, 5].map (fun d => some (dateMs 2024 3 d)))
        (dateMs 2024 3 5)).longestStreak = 3) := by
  decide

/-- C7: events whose timestamp failed to parse (`none`) are discarded:
the result equals the result on the list with them removed, and one bad
entry next to two valid consecutive days still yields a 2-day streak. -/
theorem C7_invalid_events_discarded :
    (∀ (events : List (Option Int)) (now : Int),
      computeStreaks events now = computeStreaks (events.filter (fun e => e.isSome)) now) ∧
    (computeStreaks [none, some (dateMs 2024 5 1), some (dateMs 2024 5 2)]
        (dateMs 2024 5 2)).currentStreak = 2 := by
  refine ⟨fun events now => ?_, by decide⟩
  simp only [computeStreaks, filterMap_id_filter_isSome]

/-- C10: the streak and first-of-month logic duplicated in the
`POST /api/progress` handler agrees with the `GET /api/progress/stats`
handler on every sorted date list and reference time. -/
theorem C10_post_get_equivalent (dates : List Int) (now : Int) :
    postStreakOf dates = currentStreakOf dates ∧
    postIsFirstOfMonthOf dates now = isFirstOfMonthOf dates now :=
  ⟨rfl, rfl⟩

/-- C1 (refuting evaluation): two events on the same calendar day
2024-03-15, at 00:00 and 13:00, are 13 hours apart, so the code's
`Math.round` of the raw timestamp difference yields 1 and the second
same-day event extends the streak: the pair gives `currentStreak = 2`
while the single event gives 1, and the `[D, D, D]` triple (00:00, 13:00,
23:00) differs from `[D]` — although all timestamps share one day. -/
theorem C1_same_day_not_collapsed :
    (computeStreaks [some (dateMs 2024 3 15), some (dateMs 2024 3 15 + 13 * hourMs)]
        (dateMs 2024 3 20)).currentStreak = 2 ∧
    (computeStreaks [some (dateMs 2024 3 15)] (dateMs 2024 3 20)).currentStreak = 1 ∧
    computeStreaks [some (dateMs 2024 3 15), some (dateMs 2024 3 15 + 13 * hourMs),
        some (dateMs 2024 3 15 + 23 * hourMs)] (dateMs 2024 3 20) ≠
      computeStreaks [some (dateMs 2024 3 15)] (dateMs 2024 3 20) ∧
    isSameDay (dateMs 2024 3 15) (dateMs 2024 3 15 + 13 * hourMs) = true ∧
    isSameDay (dateMs 2024 3 15) (dateMs 2024 3 15 + 23 * hourMs) = true := by
  refine ⟨by decide, by decide, by decide, by decide, by decide⟩

/-- C8: an event list containing exactly one valid timestamp always yields
`currentStreak = 1` and `longestStreak = 1`; if moreover that event falls
on `now`'s calendar day, the full result is `⟨1, 1, true⟩`. -/
theorem C8_single_event (events : List (Option Int)) (t now : Int)
    (hone : events.filterMap id = [t]) :
    ((computeStreaks events now).currentStreak = 1 ∧
     (computeStreaks events now).longestStreak = 1) ∧
    (isSameDay t now = true → computeStreaks events now = ⟨1, 1, true⟩) := by
  refine ⟨⟨by simp [computeStreaks, hone]; rfl, by simp [computeStreaks, hone]; rfl⟩,
    fun h => ?_⟩
  have hday : (dateYear t = dateYear now ∧ dateMonth t = dateMonth now) ∧ dateDay t = dateDay now := by
    simpa [isSameDay, Bool.and_eq_true, beq_iff_eq] using h
  simp [computeStreaks, hone, sortDates, List.insertionSort, List.orderedInsert,
    currentStreakOf, adjDiffs, curWalk, longestStreakOf, longAux,
    isFirstOfMonthOf, monthDates, List.filter, inMonth, isSameDay,
    hday.1.1, hday.1.2, hday.2]

/-- C8 witness: one invalid entry plus one valid event on `now`'s day,
2024-04-01; both hypotheses discharged by `decide`, result `⟨1, 1, true⟩`
(also the spec's first-of-month-true scenario). -/
theorem C8_single_event_witness :
    [none, some (dateMs 2024 4 1)].filterMap id = [dateMs 2024 4 1] ∧
    isSameDay (dateMs 2024 4 1) (dateMs 2024 4 1) = true ∧
    computeStreaks [none, some (dateMs 2024 4 1)] (dateMs 2024 4 1) = ⟨1, 1, true⟩ :=
  ⟨by decide, by decide,
    (C8_single_event [none, some (dateMs 2024 4 1)] (dateMs 2024 4 1) (dateMs 2024 4 1)
      (by decide)).2 (by decide)⟩
/-- Sorting by timestamp gives the same list on any two permutations of the
input (the order on `Int` is antisymmetric, so sorted permutations agree). -/
theorem sortDates_perm_eq {l l' : List Int} (h : l.Perm l') :
    sortDates l = sortDates l' :=
  List.eq_of_perm_of_sorted
    (((List.perm_insertionSort _ l).trans h).trans (List.perm_insertionSort _ l').symm)
    (List.sorted_insertionSort _ l) (List.sorted_insertionSort _ l')

/-- C2: permuting the events does not change the result: the computation
depends only on the multiset of timestamps (it sorts internally). -/
theorem C2_perm_invariant (events events' : List (Option Int)) (now : Int)
    (h : events.Perm events') :
    computeStreaks events now = computeStreaks events' now := by
  simp only [computeStreaks, sortDates_perm_eq (h.filterMap id)]

/-- C2 witness: a concrete transposition of two events, with the
permutation hypothesis discharged by `decide`. -/
theorem C2_perm_invariant_witness :
    computeStreaks [some (dateMs 2024 3 2), some (dateMs 2024 3 1)] (dateMs 2024 3 2) =
      computeStreaks [some (dateMs 2024 3 1), some (dateMs 2024 3 2)] (dateMs 2024 3 2) :=
  C2_perm_invariant _ _ _ (by decide)
/-- On a sorted date list, the first-of-month flag is true exactly when
some date lies in `now`'s month and year, the earliest such date is
`≤` every other one, and it falls on `now`'s calendar day. -/
theorem isFirstOfMonth_iff_sorted (dates : List Int) (now : Int)
    (hs : List.Sorted (· ≤ ·) dates) :
    isFirstOfMonthOf dates now = true ↔
      ∃ t, t ∈ dates ∧ inMonth t now = true ∧
        (∀ u ∈ dates, inMonth u now = true → t ≤ u) ∧ isSameDay t now = true := by
  unfold isFirstOfMonthOf monthDates
  cases hf : dates.filter (fun d => inMonth d now) with
  | nil =>
    simp only [Bool.false_eq_true, false_iff]
    rintro ⟨t, ht, hm, -, -⟩
    have hmem : t ∈ dates.filter (fun d => inMonth d now) := List.mem_filter.mpr ⟨ht, hm⟩
    rw [hf] at hmem
    exact absurd hmem (List.not_mem_nil t)
  | cons d rest =>
    have hd : d ∈ dates.filter (fun d => inMonth d now) := hf ▸ List.mem_cons_self d rest
    have hdmem : d ∈ dates := List.mem_of_mem_filter hd
    have hdin : inMonth d now = true := (List.mem_filter.mp hd).2
    have hsf : List.Sorted (· ≤ ·) (dates.filter (fun d => inMonth d now)) := hs.filter _
    have hmin : ∀ u ∈ dates, inMonth u now = true → d ≤ u := by
      intro u hu hum
      have hmem : u ∈ dates.filter (fun d => inMonth d now) := List.mem_filter.mpr ⟨hu, hum⟩
      rw [hf] at hmem
      rcases List.mem_cons.mp hmem with h1 | h1
      · exact h1 ▸ le_refl d
      · rw [hf] at hsf
        exact List.rel_of_sorted_cons hsf u h1
    constructor
    · intro h
      exact ⟨d, hdmem, hdin, hmin, h⟩
    · rintro ⟨t, ht, htm, htmin, hts⟩
      have h1 : d ≤ t := hmin t ht htm
      have h2 : t ≤ d := htmin d hdmem hdin
      have heq : t = d := le_antisymm h2 h1
      exact heq ▸ hts

/-- C6: `isFirstOfMonth` is true iff at least one valid event falls in
`now`'s calendar month and year and the earliest such event is on `now`'s
calendar day; in the scenario `now` = 2024-04-15 with events on 2024-04-01
and 2024-04-15 it is false. -/
theorem C6_first_of_month :
    (∀ (events : List (Option Int)) (now : Int),
      ((computeStreaks events now).isFirstOfMonth = true ↔
        ∃ t, t ∈ events.filterMap id ∧ inMonth t now = true ∧
          (∀ u ∈ events.filterMap id, inMonth u now = true → t ≤ u) ∧
          isSameDay t now = true)) ∧
    (computeStreaks [some (dateMs 2024 4 1), some (dateMs 2024 4 15)]
        (dateMs 2024 4 15)).isFirstOfMonth = false := by
  refine ⟨fun events now => ?_, by decide⟩
  have hperm : (sortDates (events.filterMap id)).Perm (events.filterMap id) :=
    List.perm_insertionSort _ _
  have hiff := isFirstOfMonth_iff_sorted (sortDates (events.filterMap id)) now
    (List.sorted_insertionSort _ _)
  constructor
  · intro h
    rcases hiff.mp h with ⟨t, ht, hm, hmin, hsd⟩
    exact ⟨t, hperm.mem_iff.mp ht, hm,
      fun u hu hum => hmin u (hperm.mem_iff.mpr hu) hum, hsd⟩
  · rintro ⟨t, ht, hm, hmin, hsd⟩
    exact hiff.mpr ⟨t, hperm.mem_iff.mpr ht, hm,
      fun u hu hum => hmin u (hperm.mem_iff.mp hu) hum, hsd⟩

/-- C6 witness: a single event on `now`'s day, 2024-04-01, makes the flag
true via the right-to-left direction of the characterization. -/
theorem C6_first_of_month_witness :
    (computeStreaks [some (dateMs 2024 4 1)] (dateMs 2024 4 1)).isFirstOfMonth = true :=
  (C6_first_of_month.1 _ _).mpr
    ⟨dateMs 2024 4 1, by decide, by decide, by decide, by decide⟩
/-- A difference that neither extends (`1`) nor is skipped (`0`): both
loops continue through exactly the differences satisfying this predicate. -/
def cleanDiff (d : Int) : Bool := d == 1 || d == 0

/-- The backward walk counts the `1`s in the longest prefix of
clean differences (it breaks at the first unclean one). -/
theorem curWalk_eq_count (ds : List Int) :
    curWalk ds = (ds.takeWhile cleanDiff).count 1 := by
  induction ds with
  | nil => rfl
  | cons d rest ih =>
    by_cases h1 : d = 1
    · subst h1
      simp [curWalk, List.takeWhile_cons, cleanDiff, ih, List.count_cons]
      omega
    · by_cases h0 : d = 0
      · subst h0
        simp [curWalk, List.takeWhile_cons, cleanDiff, ih, List.count_cons]
      · simp [curWalk, List.takeWhile_cons, cleanDiff, h1, h0]

/-- The value of `run` after the forward loop has consumed a list of
differences, starting from `run`. -/
def afterRun (run : Nat) : List Int → Nat
  | [] => run
  | d :: rest =>
    if d == 1 then afterRun (run + 1) rest
    else if d == 0 then afterRun run rest
    else afterRun 1 rest

/-- The forward loop on an append: process the first part, then continue
with the resulting `run` and best-so-far. -/
def afterBest (run best : Nat) : List Int → Nat
  | [] => best
  | d :: rest =>
    if d == 1 then afterBest (run + 1) best rest
    else if d == 0 then afterBest run best rest
    else afterBest 1 (max best run) rest

theorem longAux_append (A : List Int) :
    ∀ (B : List Int) (run best : Nat),
      longAux run best (A ++ B) = longAux (afterRun run A) (afterBest run best A) B := by
  induction A with
  | nil => intro B run best; rfl
  | cons d rest ih =>
    intro B run best
    by_cases h1 : d = 1
    · subst h1; simp [longAux, afterRun, afterBest, ih]
    · by_cases h0 : d = 0
      · subst h0; simp [longAux, afterRun, afterBest, ih]
      · simp [longAux, afterRun, afterBest, h1, h0, ih]

/-- The running counter stays positive once it is positive. -/
theorem afterRun_pos (A : List Int) : ∀ run : Nat, 1 ≤ run → 1 ≤ afterRun run A := by
  induction A with
  | nil => intro run h; exact h
  | cons d rest ih =>
    intro run h
    by_cases h1 : d = 1
    · subst h1; simpa [afterRun] using ih (run + 1) (by omega)
    · by_cases h0 : d = 0
      · subst h0; simpa [afterRun] using ih run h
      · simpa [afterRun, h1, h0] using ih 1 (by omega)

/-- The forward loop is monotone in both accumulators. -/
theorem longAux_mono (ds : List Int) :
    ∀ run best run' best' : Nat, run ≤ run' → best ≤ best' →
      longAux run best ds ≤ longAux run' best' ds := by
  induction ds with
  | nil => intro run best run' best' h1 h2; simp [longAux]; omega
  | cons d rest ih =>
    intro run best run' best' h1 h2
    by_cases hd1 : d = 1
    · subst hd1; simpa [longAux] using ih (run + 1) best (run' + 1) best' (by omega) h2
    · by_cases hd0 : d = 0
      · subst hd0; simpa [longAux] using ih run best run' best' h1 h2
      · simpa [longAux, hd1, hd0] using ih 1 (max best run) 1 (max best' run') (le_refl 1) (by omega)

/-- On a list of clean differences the forward loop never resets: it ends
at `max best (run + number_of_1s)`. -/
theorem longAux_clean (ds : List Int) :
    ∀ run best : Nat, (∀ d ∈ ds, cleanDiff d = true) →
      longAux run best ds = max best (run + ds.count 1) := by
  induction ds with
  | nil => intro run best _; simp [longAux]
  | cons d rest ih =>
    intro run best hclean
    have hd : cleanDiff d = true := hclean d (List.mem_cons_self d rest)
    have hrest : ∀ x ∈ rest, cleanDiff x = true :=
      fun x hx => hclean x (List.mem_cons_of_mem d hx)
    by_cases h1 : d = 1
    · subst h1
      simp [longAux, ih _ _ hrest, List.count_cons]
      omega
    · have h0 : d = 0 := by
        simp [cleanDiff, h1] at hd
        exact hd
      subst h0
      simp [longAux, ih _ _ hrest, List.count_cons]

/-- The trailing clean segment of the differences: the current-streak walk
counts exactly its `1`s, and the longest-streak loop ends inside it. -/
theorem longAux_ge_trailing (ds : List Int) :
    1 + (ds.reverse.takeWhile cleanDiff).count 1 ≤ longAux 1 0 ds := by
  set P := ds.reverse.takeWhile cleanDiff with hP
  set Q := ds.reverse.dropWhile cleanDiff with hQ
  have hsplit : ds = Q.reverse ++ P.reverse := by
    have : P ++ Q = ds.reverse := by
      rw [hP, hQ]
      exact List.takeWhile_append_dropWhile cleanDiff ds.reverse
    calc ds = ds.reverse.reverse := (List.reverse_reverse ds).symm
      _ = (P ++ Q).reverse := by rw [this]
      _ = Q.reverse ++ P.reverse := List.reverse_append P Q
  have hclean : ∀ d ∈ P.reverse, cleanDiff d = true := by
    intro d hd
    exact List.mem_takeWhile_imp (List.mem_reverse.mp hd)
  calc 1 + P.count 1 = 1 + P.reverse.count 1 := by rw [List.count_reverse]
    _ ≤ max 0 (1 + P.reverse.count 1) := le_max_right _ _
    _ = longAux 1 0 P.reverse := (longAux_clean P.reverse 1 0 hclean).symm
    _ ≤ longAux (afterRun 1 Q.reverse) (afterBest 1 0 Q.reverse) P.reverse :=
        longAux_mono P.reverse 1 0 _ _ (afterRun_pos Q.reverse 1 (le_refl 1)) (Nat.zero_le _)
    _ = longAux 1 0 (Q.reverse ++ P.reverse) := (longAux_append Q.reverse P.reverse 1 0).symm
    _ = longAux 1 0 ds := by rw [← hsplit]

/-- On every date list the current streak is at most the longest streak. -/
theorem currentStreak_le_longestStreak (dates : List Int) :
    currentStreakOf dates ≤ longestStreakOf dates := by
  cases dates with
  | nil => simp [currentStreakOf, longestStreakOf]
  | cons a rest =>
    show (if (a :: rest).isEmpty then 0 else 1 + curWalk (adjDiffs (a :: rest)).reverse) ≤
      longAux 1 0 (adjDiffs (a :: rest))
    simp only [List.isEmpty_cons, if_neg]
    rw [curWalk_eq_count]
    exact longAux_ge_trailing (adjDiffs (a :: rest))

/-- C9: for every event list and reference time, the computed result has
`currentStreak ≤ longestStreak`: the backward walk stops exactly where the
forward walk last reset its run, so the trailing run is the current streak
and is included in the final `max`. -/
theorem C9_current_le_longest (events : List (Option Int)) (now : Int) :
    (computeStreaks events now).currentStreak ≤ (computeStreaks events now).longestStreak :=
  currentStreak_le_longestStreak (sortDates (events.filterMap id))
